import Mathlib

/-! Verification of the anime research core of the repository
    (src/anime/entity_linker.py, src/anime/anilist.py, src/anime/rss_parser.py).

    Python strings are modelled as lists of Unicode codepoints (`List Nat`);
    the floating-point confidence scores are modelled as rationals; Python
    dictionaries are modelled as association lists with in-place update
    semantics.  Fallible network interactions are modelled as explicit
    oracle functions passed to the embedded operations. -/

namespace Anime

/-- A Python string, as a list of Unicode codepoints. -/
abbrev Str := List Nat

/-- Python `str.lower` on a codepoint, restricted to the ASCII cased range
(the alias keys and cache keys of the linker are ASCII-cased). -/
def pyLower (c : Nat) : Nat := if 65 ≤ c ∧ c ≤ 90 then c + 32 else c

/-- Python `str.lower` on a whole string. -/
def pyLowerStr (s : Str) : Str := s.map pyLower

/-- The regex class `\s` (whitespace: space, TAB, LF, VT, FF, CR). -/
def isWsChar (c : Nat) : Bool :=
  c = 32 || c = 9 || c = 10 || c = 11 || c = 12 || c = 13

/-- The regex class `\w` (word characters: digits, letters, underscore). -/
def isWordChar (c : Nat) : Bool :=
  (48 ≤ c && c ≤ 57) || (65 ≤ c && c ≤ 90) || (97 ≤ c && c ≤ 122) || c = 95

/-- The characters kept by `re.sub(r'[^\w\s\-:!?]', '', text)` in
`EntityLinker._normalize_text`: word characters, whitespace, hyphen, colon,
exclamation mark and question mark. -/
def keepChar (c : Nat) : Bool :=
  isWordChar c || isWsChar c || c = 45 || c = 58 || c = 33 || c = 63

/-- `re.sub(r'\s+', ' ', text)`: replace every maximal run of whitespace
characters by a single space (codepoint 32).  The boolean flag records
whether the previous character was whitespace (i.e. whether we are in the
middle of a run that has already emitted its space). -/
def collapseWs : List Nat → Bool → List Nat
  | [], _ => []
  | c :: cs, prev =>
    if isWsChar c then
      if prev then collapseWs cs true else 32 :: collapseWs cs true
    else c :: collapseWs cs false

/-- Python `str.strip()`: drop leading and trailing whitespace. -/
def stripWs (s : List Nat) : List Nat :=
  ((s.dropWhile isWsChar).reverse.dropWhile isWsChar).reverse

/-- `EntityLinker._normalize_text`: lower-case, drop every character outside
`[\w\s\-:!?]`, collapse whitespace runs to a single space, and trim. -/
def normalizeText (s : Str) : Str :=
  stripWs (collapseWs ((s.map pyLower).filter keepChar) false)

/-- Adjacency constraint satisfied by whitespace-collapsed text: no two
neighbouring characters are both whitespace. -/
def noTwoWs (a b : Nat) : Prop := isWsChar a = false ∨ isWsChar b = false

/-- The four season strings returned by `AniListClient.get_current_season`. -/
inductive Season where
  | winter
  | spring
  | summer
  | fall
deriving DecidableEq

/-- `AniListClient.get_current_season`: the wall clock is made explicit as the
pair (year, month) read from `datetime.now()`; the body is the month-bucket
chain of conditionals of the source. -/
def getCurrentSeason (year month : Nat) : Nat × Season :=
  if month = 1 ∨ month = 2 ∨ month = 3 then (year, Season.winter)
  else if month = 4 ∨ month = 5 ∨ month = 6 then (year, Season.spring)
  else if month = 7 ∨ month = 8 ∨ month = 9 then (year, Season.summer)
  else (year, Season.fall)

/-- A tag entry of `AnimeData`: `{"name": ..., "rank": ...}`. -/
structure MediaTag where
  name : Str
  rank : Option Nat
deriving DecidableEq

/-- A relation entry of `AnimeData` as built by `AniListClient._parse_anime`. -/
structure MediaRelation where
  relation_type : Option Str
  anilist_id : Option Nat
  title : Option Str
  format : Option Str
deriving DecidableEq

/-- A character or staff entry of `AnimeData` as built by
`AniListClient._parse_anime`. -/
structure MediaPerson where
  name : Option Str
  role : Option Str
  image : Option Str
deriving DecidableEq

/-- The `AnimeData` dataclass of anilist.py.  Date strings are modelled as
(year, month, day) triples. -/
structure AnimeData where
  anilist_id : Nat
  mal_id : Option Nat := none
  title_romaji : Str := []
  title_english : Option Str := none
  title_native : Option Str := none
  description : Option Str := none
  format : Option Str := none
  status : Option Str := none
  episodes : Option Nat := none
  duration : Option Nat := none
  season : Option Str := none
  season_year : Option Nat := none
  start_date : Option (Nat × Nat × Nat) := none
  end_date : Option (Nat × Nat × Nat) := none
  genres : List Str := []
  tags : List MediaTag := []
  average_score : Option Nat := none
  popularity : Option Nat := none
  trending : Option Nat := none
  favourites : Option Nat := none
  studios : List Str := []
  source : Option Str := none
  cover_image : Option Str := none
  banner_image : Option Str := none
  site_url : Str := []
  relations : List MediaRelation := []
  characters : List MediaPerson := []
  staff : List MediaPerson := []
deriving DecidableEq

/-- Python truthiness of an optional string: `None` and the empty string are
falsy, every other string is truthy. -/
def truthyOpt : Option Str → Bool
  | none => false
  | some s => !s.isEmpty

/-- Python `x or y` where `x` is an optional string and `y` a string. -/
def pyOrOpt (x : Option Str) (y : Str) : Str :=
  match x with
  | some s => if s.isEmpty then y else s
  | none => y

/-- Python `x or y` on plain strings. -/
def pyOrStr (x y : Str) : Str := if x.isEmpty then y else x

/-- The codepoints of the literal sentinel string Unknown. -/
def unknownTitle : Str := [85, 110, 107, 110, 111, 119, 110]

/-- `AnimeData.get_best_title`:
`self.title_english or self.title_romaji or self.title_native or "Unknown"`. -/
def getBestTitle (a : AnimeData) : Str :=
  pyOrOpt a.title_english (pyOrStr a.title_romaji (pyOrOpt a.title_native unknownTitle))

/-- Python `x or d` on an optional number, as used for the month/day defaults
of `_parse_anime` (`sd.get('month') or 1`): both `None` and `0` fall back. -/
def pyOrNat (x : Option Nat) (d : Nat) : Nat :=
  match x with
  | some n => if n = 0 then d else n
  | none => d

/-- An API-side fuzzy date: `{ year, month, day }`, each possibly null. -/
structure FuzzyDate where
  year : Option Nat
  month : Option Nat
  day : Option Nat
deriving DecidableEq

/-- The date assembly of `_parse_anime`: null unless the year is present;
month and day default to 1 when falsy. -/
def parseFuzzyDate : Option FuzzyDate → Option (Nat × Nat × Nat)
  | none => none
  | some d =>
    match d.year with
    | none => none
    | some y => some (y, pyOrNat d.month 1, pyOrNat d.day 1)

/-- An API tag object `{ name, rank }`. -/
structure TagIn where
  name : Str
  rank : Option Nat
deriving DecidableEq

/-- The node of a relation edge: `{ id, title { romaji }, format }`. -/
structure RelNodeIn where
  id : Option Nat
  title_romaji : Option Str
  format : Option Str
deriving DecidableEq

/-- A relation edge: `{ relationType, node }`; a falsy node is skipped. -/
structure RelEdgeIn where
  relation_type : Option Str
  node : Option RelNodeIn
deriving DecidableEq

/-- The node of a character/staff edge: `{ name { full }, image { medium } }`. -/
structure PersonNodeIn where
  name_full : Option Str
  image_medium : Option Str
deriving DecidableEq

/-- A character/staff edge: `{ role, node }`; a falsy node is skipped. -/
structure PersonEdgeIn where
  role : Option Str
  node : Option PersonNodeIn
deriving DecidableEq

/-- A studio node `{ name }`. -/
structure StudioNodeIn where
  name : Option Str
deriving DecidableEq

/-- The `media` object of an AniList API response, with the fields
`_parse_anime` reads.  The nested `.get(..., {}).get("edges"/"nodes")`
accesses are flattened to plain lists (an absent object behaves exactly like
an empty edge list in the source). -/
structure MediaIn where
  id : Option Nat := none
  idMal : Option Nat := none
  title_romaji : Option Str := none
  title_english : Option Str := none
  title_native : Option Str := none
  description : Option Str := none
  format : Option Str := none
  status : Option Str := none
  episodes : Option Nat := none
  duration : Option Nat := none
  season : Option Str := none
  seasonYear : Option Nat := none
  startDate : Option FuzzyDate := none
  endDate : Option FuzzyDate := none
  genres : List Str := []
  tags : List TagIn := []
  averageScore : Option Nat := none
  popularity : Option Nat := none
  trending : Option Nat := none
  favourites : Option Nat := none
  studioNodes : List StudioNodeIn := []
  source : Option Str := none
  coverImageLarge : Option Str := none
  bannerImage : Option Str := none
  siteUrl : Option Str := none
  relationEdges : List RelEdgeIn := []
  characterEdges : List PersonEdgeIn := []
  staffEdges : List PersonEdgeIn := []
deriving DecidableEq

/-- The studio list: `[s["name"] for s in nodes if s.get("name")]` (falsy
names, i.e. null or empty, are skipped). -/
def parseStudios (nodes : List StudioNodeIn) : List Str :=
  nodes.filterMap fun s =>
    match s.name with
    | some n => if n.isEmpty then none else some n
    | none => none

/-- The relation list of `_parse_anime`: every edge with a node contributes
one entry, in API order — the source applies no truncation here. -/
def parseRelations (edges : List RelEdgeIn) : List MediaRelation :=
  edges.filterMap fun e =>
    e.node.map fun n => ⟨e.relation_type, n.id, n.title_romaji, n.format⟩

/-- The character/staff list of `_parse_anime`: the first 10 edges are kept
(`edges[:10]`), each with a node contributing one entry, in API order. -/
def parsePersons (edges : List PersonEdgeIn) : List MediaPerson :=
  (edges.take 10).filterMap fun e =>
    e.node.map fun n => ⟨n.name_full, e.role, n.image_medium⟩

/-- `AniListClient._parse_anime`. -/
def parseAnime (m : MediaIn) : AnimeData where
  anilist_id := m.id.getD 0
  mal_id := m.idMal
  title_romaji := m.title_romaji.getD []
  title_english := m.title_english
  title_native := m.title_native
  description := m.description
  format := m.format
  status := m.status
  episodes := m.episodes
  duration := m.duration
  season := m.season
  season_year := m.seasonYear
  start_date := parseFuzzyDate m.startDate
  end_date := parseFuzzyDate m.endDate
  genres := m.genres
  tags := (m.tags.take 10).map fun t => ⟨t.name, t.rank⟩
  average_score := m.averageScore
  popularity := m.popularity
  trending := m.trending
  favourites := m.favourites
  studios := parseStudios m.studioNodes
  source := m.source
  cover_image := m.coverImageLarge
  banner_image := m.bannerImage
  site_url := m.siteUrl.getD []
  relations := parseRelations m.relationEdges
  characters := parsePersons m.characterEdges
  staff := parsePersons m.staffEdges

/-- Python dict lookup `d.get(k)` on a string-keyed association list. -/
def dictGet {α : Type} (k : Str) : List (Str × α) → Option α
  | [] => none
  | (k2, v) :: rest => if k2 = k then some v else dictGet k rest

/-- Python dict assignment `d[k] = v`: replace in place if the key exists,
append otherwise (insertion order is preserved, as for a Python dict). -/
def dictSet {α : Type} (k : Str) (v : α) : List (Str × α) → List (Str × α)
  | [] => [(k, v)]
  | (k2, v2) :: rest => if k2 = k then (k2, v) :: rest else (k2, v2) :: dictSet k v rest

/-- The `KNOWN_ALIASES` table: abbreviation → canonical title.  In the source
it is a class attribute of `EntityLinker`, i.e. one table per process shared
by every instance; it is therefore modelled as a piece of state separate from
the instances. -/
abbrev AliasTable := List (Str × Str)

/-- The per-instance constructor parameters of `EntityLinker`. -/
structure EntityLinker where
  min_confidence : Rat
  cache_ttl_hours : Nat
deriving DecidableEq

/-- The `match_type` strings of the linker. -/
inductive MatchType where
  | mtExact
  | mtFuzzy
  | mtPart
  | mtNone
  | mtCached
deriving DecidableEq

/-- The `LinkedEntity` dataclass.  The `anime_data` dict is modelled as the
`AnimeData` value it serializes. -/
structure LinkedEntity where
  original_text : Str
  normalized_title : Str
  anilist_id : Option Nat
  mal_id : Option Nat
  confidence : Rat
  match_type : MatchType
  anime_data : Option AnimeData
deriving DecidableEq

/-- One value of the linker cache: the fields `_add_to_cache` stores (the
`cached_at` stamp only matters for TTL eviction at load time, which is not
part of the claims, and is omitted). -/
structure CacheEntry where
  normalized_title : Str
  anilist_id : Option Nat
  mal_id : Option Nat
  confidence : Rat
  match_type : MatchType
  anime_data : Option AnimeData
deriving DecidableEq

/-- The in-memory cache `_cache`, keyed by normalized text. -/
abbrev LinkCache := List (Str × CacheEntry)

/-- `EntityLinker._get_cache_key`. -/
def getCacheKey (text : Str) : Str := normalizeText text

/-- `EntityLinker._check_cache`: rebuild a `LinkedEntity` from the stored
fields, with `original_text` set to the query text. -/
def checkCache (cache : LinkCache) (text : Str) : Option LinkedEntity :=
  (dictGet (getCacheKey text) cache).map fun e =>
    ⟨text, e.normalized_title, e.anilist_id, e.mal_id, e.confidence, e.match_type, e.anime_data⟩

/-- `EntityLinker._add_to_cache`. -/
def addToCache (cache : LinkCache) (text : Str) (e : LinkedEntity) : LinkCache :=
  dictSet (getCacheKey text) ⟨e.normalized_title, e.anilist_id, e.mal_id, e.confidence, e.match_type, e.anime_data⟩ cache

/-- `EntityLinker._resolve_alias`: look the normalized text up in the alias
table; fall back to the raw text. -/
def resolveAlias (aliases : AliasTable) (text : Str) : Str :=
  match dictGet (normalizeText text) aliases with
  | some full => full
  | none => text

/-- `EntityLinker._calculate_similarity`: the `SequenceMatcher.ratio` of the
two normalized strings.  The ratio computation itself is an oracle parameter
`ratio`; the normalization applied to both arguments is the source's. -/
def calcSimilarity (ratio : Str → Str → Rat) (t1 t2 : Str) : Rat :=
  ratio (normalizeText t1) (normalizeText t2)

/-- The running best match of the candidate loop of `link_entity`. -/
structure ScanState where
  best : Option AnimeData
  conf : Rat
  mtype : MatchType
deriving DecidableEq

/-- The title variants checked for one candidate, in source order
(romaji, english, native); falsy (null or empty) titles are skipped. -/
def titleVariants (a : AnimeData) : List Str :=
  [some a.title_romaji, a.title_english, a.title_native].filterMap fun o =>
    match o with
    | some t => if t.isEmpty then none else some t
    | none => none

/-- The match-type classification from a similarity score. -/
def classifyScore (s : Rat) : MatchType :=
  if (95 : Rat) / 100 ≤ s then MatchType.mtExact
  else if (7 : Rat) / 10 ≤ s then MatchType.mtFuzzy
  else MatchType.mtPart

/-- One step of the candidate loop: a strictly better similarity replaces the
running best and reclassifies the match type. -/
def scanTitle (ratio : Str → Str → Rat) (resolved : Str) (anime : AnimeData)
    (st : ScanState) (title : Str) : ScanState :=
  let s := calcSimilarity ratio resolved title
  if st.conf < s then ⟨some anime, s, classifyScore s⟩ else st

/-- The full candidate × title-variant scan of `link_entity`. -/
def scanResults (ratio : Str → Str → Rat) (resolved : Str)
    (results : List AnimeData) : ScanState :=
  results.foldl
    (fun st anime => (titleVariants anime).foldl (scanTitle ratio resolved anime) st)
    ⟨none, 0, MatchType.mtNone⟩

/-- The no-match result of `link_entity`: null ids, match_type none,
normalized_title falling back to the original text. -/
def noMatchEntity (text : Str) (conf : Rat) : LinkedEntity :=
  ⟨text, text, none, none, conf, MatchType.mtNone, none⟩

/-- The result of one `link_entity` call: the entity, the cache afterwards,
and how many catalog search calls were made. -/
structure LinkResult where
  entity : LinkedEntity
  cache : LinkCache
  searchCalls : Nat
deriving DecidableEq

/-- The result construction of `link_entity` (its lines 304-321): accept the
best match only when one exists and its confidence reaches the linker
threshold; otherwise fall back to the no-match result carrying the best
score. -/
def gateEntity (linker : EntityLinker) (text : Str) (st : ScanState) : LinkedEntity :=
  match st.best with
  | some b =>
    if linker.min_confidence ≤ st.conf then
      ⟨text, getBestTitle b, some b.anilist_id, b.mal_id, st.conf, st.mtype, some b⟩
    else noMatchEntity text st.conf
  | none => noMatchEntity text st.conf

/-- The cache-miss path of `link_entity` (steps 2-6): resolve aliases, search
the catalog (the `search` oracle stands for `AniListClient.search_anime`),
scan all candidates, and gate acceptance on `min_confidence`. -/
def freshEntity (linker : EntityLinker) (aliases : AliasTable)
    (ratio : Str → Str → Rat) (search : Str → List AnimeData) (text : Str) :
    LinkedEntity :=
  match search (resolveAlias aliases text) with
  | [] => noMatchEntity text 0
  | r :: rs =>
    gateEntity linker text (scanResults ratio (resolveAlias aliases text) (r :: rs))

/-- `EntityLinker.link_entity`: cache check first, then the fresh path, whose
result is written back to the cache.  `searchCalls` counts the catalog calls
the invocation performs (one per cache miss, zero per hit). -/
def linkEntity (linker : EntityLinker) (aliases : AliasTable)
    (ratio : Str → Str → Rat) (search : Str → List AnimeData)
    (text : Str) (useCache : Bool) (cache : LinkCache) : LinkResult :=
  match (if useCache then checkCache cache text else none) with
  | some cached => ⟨cached, cache, 0⟩
  | none =>
    ⟨freshEntity linker aliases ratio search text,
      addToCache cache text (freshEntity linker aliases ratio search text), 1⟩

/-- `EntityLinker.add_alias`: `KNOWN_ALIASES[alias.lower()] = full_name`.
`KNOWN_ALIASES` is a class attribute, so the write mutates the table shared
by every instance; the instance the method is invoked on is not consulted. -/
def addAlias (_inst : EntityLinker) (aliases : AliasTable) (ab full : Str) : AliasTable :=
  dictSet (pyLowerStr ab) full aliases

/-- `EntityLinker.get_aliases`: a copy of the shared class-level table. -/
def getAliases (_inst : EntityLinker) (aliases : AliasTable) : AliasTable :=
  aliases

/-- The `RSSItem` dataclass of rss_parser.py.  Publish timestamps are
modelled as integers on an abstract time axis (only their order matters). -/
structure RSSItem where
  title : Str
  link : Str
  source : Str
  source_name : Str
  published_at : Option Int
  description : Option Str
  raw_text : Option Str
  categories : List Str
  author : Str
  guid : Str
  reliability_score : Rat
deriving DecidableEq

/-- The body obtained from a successful HTTP fetch of a feed, abstracted to
what `_parse_feed` produces from it: either malformed XML (`ET.fromstring`
raises, `_parse_feed` returns the empty item list) or a well-formed feed
whose per-item parse yields the given items. -/
inductive FeedBody where
  | malformed
  | wellFormed (items : List RSSItem)
deriving DecidableEq

/-- `RSSFeedParser._parse_feed` on a fetched body. -/
def parseFeed : FeedBody → List RSSItem
  | FeedBody.malformed => []
  | FeedBody.wellFormed items => items

/-- The outcome of the HTTP GET for one source: the failure modes caught by
`fetch_source` (requests timeout, `raise_for_status` on a non-success HTTP
status, connection-level failure, any other exception), or a response body. -/
inductive Transport where
  | timeout
  | httpError (status : Nat)
  | connError
  | otherError
  | ok (body : FeedBody)
deriving DecidableEq

/-- One entry of the RSS source registry.  `enabled` is optional because the
source reads it with `source.get("enabled", True)`. -/
structure RSSSource where
  name : Str
  url : Str
  reliability_score : Rat
  category : Str
  enabled : Option Bool
deriving DecidableEq

/-- `self.sources`: the registry, keyed by source key. -/
abbrev SourceTable := List (Str × RSSSource)

/-- The date filter of `fetch_source`: keep items published on or after
`now - days`; items without a parseable date are kept.  (The source has two
branches for timezone-aware and naive datetimes; both compare the publish
time against the same cutoff.) -/
def dateFilter (now days : Int) (items : List RSSItem) : List RSSItem :=
  items.filter fun it =>
    match it.published_at with
    | some t => decide (now - days ≤ t)
    | none => true

/-- The truncation of `fetch_source`: `if limit: filtered = filtered[:limit]`.
Python truthiness makes both `None` and `0` skip the truncation. -/
def applyLimit (limit : Option Nat) (l : List RSSItem) : List RSSItem :=
  match limit with
  | none => l
  | some n => if n = 0 then l else l.take n

/-- `RSSFeedParser.fetch_source`.  Every failure mode of the source's
try/except chain returns the empty list; the embedded function is total, so
no path can raise. -/
def fetchSource (sources : SourceTable) (transport : Str → Transport)
    (now days : Int) (limit : Option Nat) (key : Str) : List RSSItem :=
  match dictGet key sources with
  | none => []
  | some src =>
    if src.enabled.getD true = false then []
    else
      match transport key with
      | Transport.timeout => []
      | Transport.httpError _ => []
      | Transport.connError => []
      | Transport.otherError => []
      | Transport.ok body => applyLimit limit (dateFilter now days (parseFeed body))

/-- A per-source status in the statistics record of `fetch_all_sources`. -/
inductive SourceStatus where
  | disabled
  | success
  | failed
deriving DecidableEq

/-- The statistics record accumulated by `fetch_all_sources`. -/
structure FetchStats where
  total_sources : Nat
  successful_sources : Nat
  failed_sources : Nat
  skipped_sources : Nat
  source_details : List (Str × SourceStatus × Nat)
deriving DecidableEq

/-- The accumulator of the per-source loop of `fetch_all_sources`. -/
structure AggAcc where
  items : List RSSItem
  succ : Nat
  failed : Nat
  details : List (Str × SourceStatus × Nat)
deriving DecidableEq

/-- One iteration of the loop: a non-empty fetch counts as success and its
items are appended; an empty fetch counts as failure. -/
def aggStep (fetch : Str → List RSSItem) (acc : AggAcc) (k : Str) : AggAcc :=
  let items := fetch k
  if items.isEmpty then
    ⟨acc.items, acc.succ, acc.failed + 1, acc.details ++ [(k, SourceStatus.failed, 0)]⟩
  else
    ⟨acc.items ++ items, acc.succ + 1, acc.failed, acc.details ++ [(k, SourceStatus.success, items.length)]⟩

/-- The whole loop of `fetch_all_sources`. -/
def aggRun (fetch : Str → List RSSItem) (keys : List Str) (acc : AggAcc) : AggAcc :=
  keys.foldl (aggStep fetch) acc

/-- The keys considered by a `fetch_all_sources` call:
`sources or list(self.sources.keys())`. -/
def sourceKeysOf (sources : SourceTable) (keys : Option (List Str)) : List Str :=
  keys.getD (sources.map Prod.fst)

/-- `self.sources.get(k, {}).get("enabled", True)`: an unknown key counts as
enabled. -/
def enabledOf (sources : SourceTable) (k : Str) : Bool :=
  match dictGet k sources with
  | some s => s.enabled.getD true
  | none => true

/-- The enabled keys of a run, in request order. -/
def enabledKeysOf (sources : SourceTable) (keys : Option (List Str)) : List Str :=
  (sourceKeysOf sources keys).filter (enabledOf sources)

/-- The disabled keys of a run, in request order. -/
def disabledKeysOf (sources : SourceTable) (keys : Option (List Str)) : List Str :=
  (sourceKeysOf sources keys).filter fun k => !enabledOf sources k

/-- The sort key of the final ordering: `x.published_at or datetime.min`,
with `datetime.min` modelled as a time below every feed timestamp. -/
def pubSortKey (it : RSSItem) : Int :=
  match it.published_at with
  | some t => t
  | none => -(10 ^ 18)

/-- `RSSFeedParser.fetch_all_sources`: skip disabled sources up front, fetch
every enabled one, count empty results as failed and non-empty ones as
successful, then sort all items by publish date, newest first. -/
def fetchAllSources (sources : SourceTable) (transport : Str → Transport)
    (now days : Int) (limitPer : Option Nat) (keys : Option (List Str)) :
    List RSSItem × FetchStats :=
  let sourceKeys := sourceKeysOf sources keys
  let disabled := disabledKeysOf sources keys
  let acc0 : AggAcc := ⟨[], 0, 0, disabled.map fun k => (k, SourceStatus.disabled, 0)⟩
  let agg := aggRun (fetchSource sources transport now days limitPer)
    (enabledKeysOf sources keys) acc0
  let sorted := agg.items.mergeSort fun a b => pubSortKey b ≤ pubSortKey a
  (sorted, ⟨sourceKeys.length, agg.succ, agg.failed, disabled.length, agg.details⟩)

/-- A concrete API media object carrying eleven relation edges, each with a
node, and nothing else. -/
def mediaElevenRelations : MediaIn where
  id := some 1
  relationEdges := List.replicate 11 ⟨none, some ⟨some 7, none, none⟩⟩

/-- A one-source registry whose single source (key "a") is enabled. -/
def demoSources : SourceTable :=
  [([97], ⟨[97], [104], 1, [110], some true⟩)]

/-- A transport in which source "a" fetches successfully and its well-formed
feed legitimately contains no items. -/
def demoTransport : Str → Transport :=
  fun _ => Transport.ok (FeedBody.wellFormed [])

/-- A concrete media record with all three title variants present. -/
def demoEnglishAnime : AnimeData where
  anilist_id := 1
  title_romaji := [114]
  title_english := some [101]
  title_native := some [110]

/-- The character at index `i`, if any. -/
def charAt (s : Str) (i : Nat) : Option Nat := (s.drop i).head?

/-- Word-ness of an optional character for the regex assertion `\b`: a
missing character (string edge) counts as non-word. -/
def isWordOpt : Option Nat → Bool
  | some c => isWordChar c
  | none => false

/-- The regex assertion `\b`: it holds between two (possibly missing)
characters exactly when one side is a word character and the other is not. -/
def wordBoundary (l r : Option Nat) : Bool := isWordOpt l != isWordOpt r

/-- One candidate position of `re.search(rf'\b{re.escape(alias)}\b', text)`:
the escaped alias matches literally at index `i` and both ends sit on a word
boundary. -/
def aliasMatchAt (textL ab : Str) (i : Nat) : Bool :=
  decide ((textL.drop i).take ab.length = ab) &&
  wordBoundary (if i = 0 then none else charAt textL (i - 1)) ab.head? &&
  wordBoundary ab.getLast? (charAt textL (i + ab.length))

/-- `re.search(rf'\b{re.escape(alias)}\b', text_lower)` as a boolean: some
position of the lowered text matches. -/
def wordSearch (ab textL : Str) : Bool :=
  (List.range (textL.length + 1)).any (aliasMatchAt textL ab)

/-- The alias loop of `extract_entities` (its lines 368-373): for every
table entry whose stored key occurs word-bounded in the lowered text, append
the full name, in table order. -/
def aliasScan (aliases : AliasTable) (textL : Str) : List Str :=
  aliases.filterMap fun p => if wordSearch p.1 textL then some p.2 else none

/-- The dedup loop of `extract_entities` (its lines 375-382): keep the first
candidate of each normalized form; `seen` is the set of normalized forms
already emitted. -/
def dedupAux (seen : List Str) : List Str → List Str
  | [] => []
  | e :: es =>
    if normalizeText e ∈ seen then dedupAux seen es
    else e :: dedupAux (normalizeText e :: seen) es

/-- `extract_entities` deduplication, starting from an empty seen-set. -/
def dedupByNormalized (l : List Str) : List Str := dedupAux [] l

/-- `EntityLinker.extract_entities`: the quoted-title candidates (the four
TITLE_PATTERNS regex passes over the raw text, abstracted as the oracle
input `quoteHits`), followed by the word-bounded alias hits over the lowered
text, deduplicated by normalized form while preserving first-seen order. -/
def extractEntities (quoteHits : List Str) (aliases : AliasTable) (text : Str) :
    List Str :=
  dedupByNormalized (quoteHits ++ aliasScan aliases (pyLowerStr text))

/-- The codepoints of the alias fate/stay night (a key the source itself
ships in KNOWN_ALIASES); the slash is outside the normalization keep-set. -/
def fateAlias : Str := [102, 97, 116, 101, 47, 115, 116, 97, 121, 32, 110, 105, 103, 104, 116]

/-- The codepoints of the canonical title Fate/stay night. -/
def fateFull : Str := [70, 97, 116, 101, 47, 115, 116, 97, 121, 32, 110, 105, 103, 104, 116]

/-! Lemmas about the normalization pipeline. -/

/-- ASCII lower-casing is idempotent on codepoints. -/
theorem pyLower_pyLower (c : Nat) : pyLower (pyLower c) = pyLower c := by
  unfold pyLower
  by_cases h : 65 ≤ c ∧ c ≤ 90
  · rw [if_pos h, if_neg (show ¬(65 ≤ c + 32 ∧ c + 32 ≤ 90) by omega)]
  · rw [if_neg h, if_neg h]

/-- Every character emitted by the whitespace collapse is a space or comes
from the input. -/
theorem mem_collapseWs : ∀ (l : List Nat) (b : Bool) (c : Nat),
    c ∈ collapseWs l b → c = 32 ∨ c ∈ l := by
  intro l
  induction l with
  | nil => intro b c h; simp [collapseWs] at h
  | cons d ds ih =>
    intro b c h
    simp only [collapseWs] at h
    split at h
    · split at h
      · rcases ih true c h with h1 | h1
        · exact Or.inl h1
        · exact Or.inr (List.mem_cons_of_mem d h1)
      · rcases List.mem_cons.mp h with h1 | h1
        · exact Or.inl h1
        · rcases ih true c h1 with h2 | h2
          · exact Or.inl h2
          · exact Or.inr (List.mem_cons_of_mem d h2)
    · rcases List.mem_cons.mp h with h1 | h1
      · exact Or.inr (h1 ▸ List.mem_cons_self d ds)
      · rcases ih false c h1 with h2 | h2
        · exact Or.inl h2
        · exact Or.inr (List.mem_cons_of_mem d h2)

/-- Every whitespace character emitted by the collapse is the single space. -/
theorem collapseWs_ws32 : ∀ (l : List Nat) (b : Bool) (c : Nat),
    c ∈ collapseWs l b → isWsChar c = true → c = 32 := by
  intro l
  induction l with
  | nil => intro b c h; simp [collapseWs] at h
  | cons d ds ih =>
    intro b c h hw
    simp only [collapseWs] at h
    split at h
    · split at h
      · exact ih true c h hw
      · rcases List.mem_cons.mp h with h1 | h1
        · exact h1
        · exact ih true c h1 hw
    · next hd =>
      rcases List.mem_cons.mp h with h1 | h1
      · subst h1; simp [hw] at hd
      · exact ih false c h1 hw

/-- After the collapse has just emitted a space (flag true), the next emitted
character is not whitespace. -/
theorem collapseWs_true_head : ∀ (l : List Nat),
    ∀ y ∈ (collapseWs l true).head?, isWsChar y = false := by
  intro l
  induction l with
  | nil => simp [collapseWs]
  | cons d ds ih =>
    intro y hy
    simp only [collapseWs] at hy
    split at hy
    · exact ih y hy
    · next hd =>
      simp only [List.head?_cons, Option.mem_def, Option.some.injEq] at hy
      subst hy
      simp at hd
      exact hd

/-- The collapse output never holds two adjacent whitespace characters. -/
theorem collapseWs_chain : ∀ (l : List Nat) (b : Bool),
    List.Chain' noTwoWs (collapseWs l b) := by
  intro l
  induction l with
  | nil => intro b; simp [collapseWs]
  | cons d ds ih =>
    intro b
    simp only [collapseWs]
    split
    · split
      · exact ih true
      · refine List.chain'_cons'.mpr ⟨?_, ih true⟩
        intro y hy
        exact Or.inr (collapseWs_true_head ds y hy)
    · next hd =>
      refine List.chain'_cons'.mpr ⟨?_, ih false⟩
      intro y _
      refine Or.inl ?_
      simpa using hd

/-- `noTwoWs` is symmetric, so chains survive reversal. -/
theorem chainRev {l : List Nat} (h : List.Chain' noTwoWs l) :
    List.Chain' noTwoWs l.reverse := by
  rw [List.chain'_reverse]
  exact h.imp fun a b hab => Or.symm hab

/-- A list whose whitespace is single spaces and never adjacent is a fixed
point of the collapse. -/
theorem collapseWs_fixed : ∀ (l : List Nat) (b : Bool),
    (∀ c ∈ l, isWsChar c = true → c = 32) →
    List.Chain' noTwoWs l →
    (b = true → ∀ y ∈ l.head?, isWsChar y = false) →
    collapseWs l b = l := by
  intro l
  induction l with
  | nil => intro b _ _ _; rfl
  | cons d ds ih =>
    intro b h32 hch hhd
    by_cases hw : isWsChar d = true
    · cases b with
      | true =>
        have := hhd rfl d (by simp)
        rw [hw] at this
        cases this
      | false =>
        simp only [collapseWs, hw, if_true]
        rw [if_neg (by simp)]
        have hd32 : d = 32 := h32 d (by simp) hw
        have hds : collapseWs ds true = ds := by
          refine ih true (fun c hc hwc => h32 c (List.mem_cons_of_mem d hc) hwc)
            (List.chain'_cons'.mp hch).2 ?_
          intro _ y hy
          rcases (List.chain'_cons'.mp hch).1 y hy with h1 | h1
          · rw [hw] at h1; cases h1
          · exact h1
        rw [hds, hd32]
    · have hds : collapseWs ds false = ds := by
        refine ih false (fun c hc hwc => h32 c (List.mem_cons_of_mem d hc) hwc)
          (List.chain'_cons'.mp hch).2 ?_
        intro hfalse
        cases hfalse
      simp only [collapseWs]
      rw [if_neg hw, hds]

/-- The head surviving a `dropWhile` fails the predicate. -/
theorem dropWhile_head_false (p : Nat → Bool) (l : List Nat) :
    ∀ y ∈ (l.dropWhile p).head?, p y = false := by
  induction l with
  | nil => simp [List.dropWhile]
  | cons d ds ih =>
    intro y hy
    rw [List.dropWhile_cons] at hy
    by_cases h : p d = true
    · rw [if_pos h] at hy
      exact ih y hy
    · rw [if_neg h] at hy
      simp only [List.head?_cons, Option.mem_def, Option.some.injEq] at hy
      subst hy
      simpa using h

/-- A list whose head fails the predicate is untouched by `dropWhile`. -/
theorem dropWhile_self (p : Nat → Bool) (l : List Nat)
    (h : ∀ y ∈ l.head?, p y = false) : l.dropWhile p = l := by
  cases l with
  | nil => rfl
  | cons d ds =>
    have hd : p d = false := h d rfl
    simp [List.dropWhile_cons, hd]

/-- `dropWhile` is idempotent. -/
theorem dropWhile_dropWhile (p : Nat → Bool) (l : List Nat) :
    (l.dropWhile p).dropWhile p = l.dropWhile p :=
  dropWhile_self p (l.dropWhile p) (dropWhile_head_false p l)

/-- A list with no leading and no trailing whitespace is a fixed point of the
strip. -/
theorem stripWs_self (l : List Nat) (h1 : l.dropWhile isWsChar = l)
    (h2 : l.reverse.dropWhile isWsChar = l.reverse) : stripWs l = l := by
  unfold stripWs
  rw [h1, h2, List.reverse_reverse]

/-- Stripping is idempotent. -/
theorem stripWs_idem (s : List Nat) : stripWs (stripWs s) = stripWs s := by
  have hlast : ∀ y ∈ ((s.dropWhile isWsChar).reverse.dropWhile isWsChar).getLast?,
      isWsChar y = false := by
    intro y hy
    rcases @List.dropWhile_suffix Nat ((s.dropWhile isWsChar).reverse) isWsChar with ⟨t, ht⟩
    have h1 : (t ++ (s.dropWhile isWsChar).reverse.dropWhile isWsChar).getLast? = some y := by
      rw [List.getLast?_append, hy]
      rfl
    rw [ht, List.getLast?_reverse] at h1
    exact dropWhile_head_false isWsChar s y h1
  refine stripWs_self (stripWs s) ?_ ?_
  · refine dropWhile_self isWsChar (stripWs s) ?_
    unfold stripWs
    rw [List.head?_reverse]
    exact hlast
  · unfold stripWs
    rw [List.reverse_reverse]
    exact dropWhile_dropWhile _ _

/-- Every character of a normalized string is lower-case and in the kept
class. -/
theorem mem_stripWs {c : Nat} {s : List Nat} (h : c ∈ stripWs s) : c ∈ s := by
  unfold stripWs at h
  rw [List.mem_reverse] at h
  have h1 := List.Sublist.mem h (List.IsSuffix.sublist (List.dropWhile_suffix isWsChar))
  rw [List.mem_reverse] at h1
  exact List.Sublist.mem h1 (List.IsSuffix.sublist (List.dropWhile_suffix isWsChar))

/-- A function fixing every element of a list fixes the list under `map`. -/
theorem map_fix {f : Nat → Nat} : ∀ {l : List Nat}, (∀ c ∈ l, f c = c) → l.map f = l := by
  intro l
  induction l with
  | nil => intro _; rfl
  | cons d ds ih =>
    intro h
    simp only [List.map_cons]
    rw [h d (by simp), ih fun c hc => h c (List.mem_cons_of_mem d hc)]

/-- Characters of a normalized string are fixed by lower-casing and kept by
the character filter. -/
theorem normalizeText_chars {c : Nat} {s : Str} (h : c ∈ normalizeText s) :
    pyLower c = c ∧ keepChar c = true := by
  unfold normalizeText at h
  rcases mem_collapseWs _ _ _ (mem_stripWs h) with h2 | h2
  · subst h2
    exact ⟨by decide, by decide⟩
  · have h3 := List.mem_filter.mp h2
    obtain ⟨a, _, ha⟩ := List.mem_map.mp h3.1
    exact ⟨ha ▸ pyLower_pyLower a, h3.2⟩

/-- Whitespace inside a normalized string is the single space. -/
theorem normalizeText_ws32 {c : Nat} {s : Str} (h : c ∈ normalizeText s)
    (hw : isWsChar c = true) : c = 32 := by
  unfold normalizeText at h
  exact collapseWs_ws32 _ _ _ (mem_stripWs h) hw

/-- A normalized string has no two adjacent whitespace characters. -/
theorem normalizeText_chain (s : Str) : List.Chain' noTwoWs (normalizeText s) := by
  unfold normalizeText stripWs
  refine chainRev (List.Chain'.suffix ?_ (List.dropWhile_suffix isWsChar))
  refine chainRev (List.Chain'.suffix ?_ (List.dropWhile_suffix isWsChar))
  exact collapseWs_chain _ _

/-- Claim C7: the EntityLinker text normalization (lower-case, strip all
characters except word characters, whitespace, hyphen, colon, exclamation
and question marks, collapse whitespace runs to a single space, trim) is
idempotent: normalizing twice equals normalizing once, for every input. -/
theorem normalizeText_idem (s : Str) :
    normalizeText (normalizeText s) = normalizeText s := by
  have hmap : (normalizeText s).map pyLower = normalizeText s :=
    map_fix fun c hc => (normalizeText_chars hc).1
  have hfil : (normalizeText s).filter keepChar = normalizeText s :=
    List.filter_eq_self.mpr fun c hc => (normalizeText_chars hc).2
  have hcol : collapseWs (normalizeText s) false = normalizeText s :=
    collapseWs_fixed _ false (fun c hc hw => normalizeText_ws32 hc hw)
      (normalizeText_chain s) (fun hfalse => by cases hfalse)
  conv_lhs => rw [normalizeText]
  rw [hmap, hfil, hcol]
  exact stripWs_idem _

/-- Claim C8: `get_current_season` is a pure function of the clock pair
(year, month): months 1-3 map to WINTER, 4-6 to SPRING, 7-9 to SUMMER and
10-12 to FALL, exhaustively over all twelve months, always paired with the
clock year. -/
theorem getCurrentSeason_buckets (year month : Nat)
    (h1 : 1 ≤ month) (h2 : month ≤ 12) :
    ((month = 1 ∨ month = 2 ∨ month = 3) →
        getCurrentSeason year month = (year, Season.winter)) ∧
    ((month = 4 ∨ month = 5 ∨ month = 6) →
        getCurrentSeason year month = (year, Season.spring)) ∧
    ((month = 7 ∨ month = 8 ∨ month = 9) →
        getCurrentSeason year month = (year, Season.summer)) ∧
    ((month = 10 ∨ month = 11 ∨ month = 12) →
        getCurrentSeason year month = (year, Season.fall)) := by
  interval_cases month <;> simp [getCurrentSeason]

/-- Witness for C8: month 4 maps to SPRING (with the clock year 2026). -/
theorem getCurrentSeason_buckets_witness :
    getCurrentSeason 2026 4 = (2026, Season.spring) :=
  (getCurrentSeason_buckets 2026 4 (by decide) (by decide)).2.1 (Or.inl rfl)

/-- Claim C6: best-title resolution prefers a present (truthy) English title,
then the romanized title, then the native title, and returns the literal
Unknown sentinel when all three are absent.  Presence follows the source's
Python-or chain: a null or empty variant counts as absent. -/
theorem getBestTitle_precedence (a : AnimeData) :
    (truthyOpt a.title_english = true →
        ∃ e, a.title_english = some e ∧ getBestTitle a = e) ∧
    (truthyOpt a.title_english = false → a.title_romaji ≠ [] →
        getBestTitle a = a.title_romaji) ∧
    (truthyOpt a.title_english = false → a.title_romaji = [] →
        truthyOpt a.title_native = true →
        ∃ n, a.title_native = some n ∧ getBestTitle a = n) ∧
    (truthyOpt a.title_english = false → a.title_romaji = [] →
        truthyOpt a.title_native = false →
        getBestTitle a = unknownTitle) := by
  refine ⟨?_, ?_, ?_, ?_⟩
  · intro he
    cases h : a.title_english with
    | none => rw [h] at he; cases he
    | some e =>
      rw [h] at he
      have he2 : e.isEmpty = false := by simpa [truthyOpt] using he
      exact ⟨e, rfl, by simp [getBestTitle, pyOrOpt, h, he2]⟩
  · intro he hr
    have hr2 : a.title_romaji.isEmpty = false := by
      cases h : a.title_romaji with
      | nil => exact absurd h hr
      | cons x xs => rfl
    cases h : a.title_english with
    | none => simp [getBestTitle, pyOrOpt, pyOrStr, h, hr2]
    | some e =>
      rw [h] at he
      have he2 : e.isEmpty = true := by simpa [truthyOpt] using he
      simp [getBestTitle, pyOrOpt, pyOrStr, h, he2, hr2]
  · intro he hr hn
    have hr2 : a.title_romaji.isEmpty = true := by simp [hr]
    cases h2 : a.title_native with
    | none => rw [h2] at hn; cases hn
    | some n =>
      rw [h2] at hn
      have hn2 : n.isEmpty = false := by simpa [truthyOpt] using hn
      refine ⟨n, rfl, ?_⟩
      cases h : a.title_english with
      | none => simp [getBestTitle, pyOrOpt, pyOrStr, h, h2, hr2, hn2]
      | some e =>
        rw [h] at he
        have he2 : e.isEmpty = true := by simpa [truthyOpt] using he
        simp [getBestTitle, pyOrOpt, pyOrStr, h, h2, he2, hr2, hn2]
  · intro he hr hn
    have hr2 : a.title_romaji.isEmpty = true := by simp [hr]
    have hnat : pyOrOpt a.title_native unknownTitle = unknownTitle := by
      cases h2 : a.title_native with
      | none => simp [pyOrOpt]
      | some n =>
        rw [h2] at hn
        have hn2 : n.isEmpty = true := by simpa [truthyOpt] using hn
        simp [pyOrOpt, hn2]
    have heng : ∀ y, pyOrOpt a.title_english y = y := by
      intro y
      cases h : a.title_english with
      | none => simp [pyOrOpt]
      | some e =>
        rw [h] at he
        have he2 : e.isEmpty = true := by simpa [truthyOpt] using he
        simp [pyOrOpt, he2]
    simp [getBestTitle, pyOrStr, heng, hnat, hr2]

/-- Witness for C6: with all three variants present the English one wins. -/
theorem getBestTitle_precedence_witness :
    getBestTitle demoEnglishAnime = [101] := by
  obtain ⟨e, he, hb⟩ := (getBestTitle_precedence demoEnglishAnime).1 (by decide)
  have h2 : some [101] = some e := by
    rw [show demoEnglishAnime.title_english = some [101] from rfl] at he
    exact he.symm ▸ rfl
  rw [hb]
  exact (Option.some.injEq _ _ ▸ h2).symm

/-- Counterexample to C3 as stated: a media object with eleven relation
edges (each with a node) parses to a record with eleven relation entries —
`_parse_anime` does not truncate the relation list to 10. -/
theorem parseAnime_relations_exceed_ten :
    (parseAnime mediaElevenRelations).relations.length = 11 ∧
    ¬(parseAnime mediaElevenRelations).relations.length ≤ 10 := by
  constructor
  · rfl
  · decide

/-- Claim C3, amended: the tag, character and staff lists are each truncated
to the first 10 entries returned by the API, in API order (not re-sorted),
but the relation list is not truncated: it holds one entry for every
relation edge with a node, in API order. -/
theorem parseAnime_truncation (m : MediaIn) :
    (parseAnime m).tags = (m.tags.take 10).map (fun t => ⟨t.name, t.rank⟩) ∧
    (parseAnime m).tags.length ≤ 10 ∧
    (parseAnime m).characters = parsePersons m.characterEdges ∧
    (parseAnime m).characters.length ≤ 10 ∧
    (parseAnime m).staff = parsePersons m.staffEdges ∧
    (parseAnime m).staff.length ≤ 10 ∧
    (parseAnime m).relations = parseRelations m.relationEdges := by
  refine ⟨rfl, ?_, rfl, ?_, rfl, ?_, rfl⟩
  · show ((m.tags.take 10).map fun t => (⟨t.name, t.rank⟩ : MediaTag)).length ≤ 10
    rw [List.length_map, List.length_take]
    exact min_le_left _ _
  · show (parsePersons m.characterEdges).length ≤ 10
    calc (parsePersons m.characterEdges).length
        ≤ (m.characterEdges.take 10).length := List.length_filterMap_le _ _
      _ ≤ 10 := by rw [List.length_take]; exact min_le_left _ _
  · show (parsePersons m.staffEdges).length ≤ 10
    calc (parsePersons m.staffEdges).length
        ≤ (m.staffEdges.take 10).length := List.length_filterMap_le _ _
      _ ≤ 10 := by rw [List.length_take]; exact min_le_left _ _

/-! Lemmas about the linker cache and alias table. -/

/-- Looking a key up right after setting it returns the stored value. -/
theorem dictGet_dictSet {α : Type} (k : Str) (v : α) :
    ∀ d : List (Str × α), dictGet k (dictSet k v d) = some v := by
  intro d
  induction d with
  | nil => simp [dictGet, dictSet]
  | cons p rest ih =>
    obtain ⟨k2, v2⟩ := p
    by_cases h : k2 = k
    · simp [dictSet, dictGet, h]
    · simp [dictSet, dictGet, h, ih]

/-- An entity whose `original_text` is the query text round-trips through the
cache unchanged. -/
theorem checkCache_addToCache (cache : LinkCache) (text : Str) (e : LinkedEntity)
    (h : e.original_text = text) :
    checkCache (addToCache cache text e) text = some e := by
  unfold checkCache addToCache
  rw [dictGet_dictSet]
  cases e
  simp only [Option.map_some']
  rw [← h]

/-- A cache hit reproduces the query text as `original_text`. -/
theorem checkCache_original {cache : LinkCache} {text : Str} {c : LinkedEntity}
    (h : checkCache cache text = some c) : c.original_text = text := by
  unfold checkCache at h
  cases hd : dictGet (getCacheKey text) cache with
  | none => rw [hd] at h; cases h
  | some e =>
    rw [hd] at h
    simp only [Option.map_some', Option.some.injEq] at h
    rw [← h]

/-- The gate keeps the query text as `original_text`. -/
theorem gateEntity_original (linker : EntityLinker) (text : Str) (st : ScanState) :
    (gateEntity linker text st).original_text = text := by
  obtain ⟨best, conf, mtype⟩ := st
  cases best with
  | none => rfl
  | some b =>
    by_cases h : linker.min_confidence ≤ conf
    · simp [gateEntity, h]
    · simp [gateEntity, h, noMatchEntity]

/-- A kept catalog id means the gate accepted: the confidence reached the
threshold and is reported verbatim. -/
theorem gateEntity_id_accepted (linker : EntityLinker) (text : Str) (st : ScanState)
    (h : (gateEntity linker text st).anilist_id ≠ none) :
    linker.min_confidence ≤ st.conf ∧ (gateEntity linker text st).confidence = st.conf := by
  obtain ⟨best, conf, mtype⟩ := st
  cases best with
  | none => exact absurd rfl h
  | some b =>
    by_cases hc : linker.min_confidence ≤ conf
    · constructor
      · exact hc
      · simp [gateEntity, hc]
    · exact absurd (by simp [gateEntity, hc, noMatchEntity]) h

/-- Below the threshold the gate produces the no-match result carrying the
best score. -/
theorem gateEntity_below (linker : EntityLinker) (text : Str) (st : ScanState)
    (h : st.conf < linker.min_confidence) :
    gateEntity linker text st = noMatchEntity text st.conf := by
  obtain ⟨best, conf, mtype⟩ := st
  cases best with
  | none => rfl
  | some b => simp [gateEntity, not_le.mpr h]

/-- Reduction of the fresh path on an empty search result. -/
theorem freshEntity_nil (linker : EntityLinker) (aliases : AliasTable)
    (ratio : Str → Str → Rat) (search : Str → List AnimeData) (text : Str)
    (h : search (resolveAlias aliases text) = []) :
    freshEntity linker aliases ratio search text = noMatchEntity text 0 := by
  unfold freshEntity
  rw [h]

/-- Reduction of the fresh path on a non-empty search result. -/
theorem freshEntity_cons (linker : EntityLinker) (aliases : AliasTable)
    (ratio : Str → Str → Rat) (search : Str → List AnimeData) (text : Str)
    (r : AnimeData) (rs : List AnimeData)
    (h : search (resolveAlias aliases text) = r :: rs) :
    freshEntity linker aliases ratio search text =
      gateEntity linker text (scanResults ratio (resolveAlias aliases text) (r :: rs)) := by
  unfold freshEntity
  rw [h]

/-- The fresh path always reports the query text verbatim. -/
theorem freshEntity_original (linker : EntityLinker) (aliases : AliasTable)
    (ratio : Str → Str → Rat) (search : Str → List AnimeData) (text : Str) :
    (freshEntity linker aliases ratio search text).original_text = text := by
  cases hs : search (resolveAlias aliases text) with
  | nil => rw [freshEntity_nil linker aliases ratio search text hs]; rfl
  | cons r rs =>
    rw [freshEntity_cons linker aliases ratio search text r rs hs]
    exact gateEntity_original _ _ _

/-- With the cache enabled, a hit short-circuits `link_entity`. -/
theorem linkEntity_hit (linker : EntityLinker) (aliases : AliasTable)
    (ratio : Str → Str → Rat) (search : Str → List AnimeData)
    {text : Str} {cache : LinkCache} {c : LinkedEntity}
    (h : checkCache cache text = some c) :
    linkEntity linker aliases ratio search text true cache = ⟨c, cache, 0⟩ := by
  unfold linkEntity
  rw [show (if true then checkCache cache text else none) = checkCache cache text from rfl, h]

/-- With the cache enabled, a miss runs the fresh path and caches it. -/
theorem linkEntity_miss (linker : EntityLinker) (aliases : AliasTable)
    (ratio : Str → Str → Rat) (search : Str → List AnimeData)
    {text : Str} {cache : LinkCache}
    (h : checkCache cache text = none) :
    linkEntity linker aliases ratio search text true cache =
      ⟨freshEntity linker aliases ratio search text,
        addToCache cache text (freshEntity linker aliases ratio search text), 1⟩ := by
  unfold linkEntity
  rw [show (if true then checkCache cache text else none) = checkCache cache text from rfl, h]

/-- Claim C1: on a fresh (uncached) `link_entity` computation, `anilist_id`
is non-null only when the computed confidence reaches `min_confidence` and
the catalog search returned at least one candidate; when the search is empty
the result has null id, match_type none, the original text as normalized
title, and confidence 0; when candidates exist but the best similarity is
below `min_confidence`, the result has null id, match_type none, the
original text as normalized title, and the best similarity as confidence. -/
theorem linkEntity_confidence_gating (linker : EntityLinker) (aliases : AliasTable)
    (ratio : Str → Str → Rat) (search : Str → List AnimeData)
    (text : Str) (cache : LinkCache) :
    ((linkEntity linker aliases ratio search text false cache).entity.anilist_id ≠ none →
      linker.min_confidence ≤
        (linkEntity linker aliases ratio search text false cache).entity.confidence ∧
      search (resolveAlias aliases text) ≠ []) ∧
    (search (resolveAlias aliases text) = [] →
      (linkEntity linker aliases ratio search text false cache).entity.anilist_id = none ∧
      (linkEntity linker aliases ratio search text false cache).entity.match_type = MatchType.mtNone ∧
      (linkEntity linker aliases ratio search text false cache).entity.normalized_title = text ∧
      (linkEntity linker aliases ratio search text false cache).entity.confidence = 0) ∧
    (∀ r rs, search (resolveAlias aliases text) = r :: rs →
      (scanResults ratio (resolveAlias aliases text) (r :: rs)).conf < linker.min_confidence →
      (linkEntity linker aliases ratio search text false cache).entity.anilist_id = none ∧
      (linkEntity linker aliases ratio search text false cache).entity.match_type = MatchType.mtNone ∧
      (linkEntity linker aliases ratio search text false cache).entity.normalized_title = text ∧
      (linkEntity linker aliases ratio search text false cache).entity.confidence =
        (scanResults ratio (resolveAlias aliases text) (r :: rs)).conf) := by
  have hred : (linkEntity linker aliases ratio search text false cache).entity
      = freshEntity linker aliases ratio search text := rfl
  rw [hred]
  refine ⟨?_, ?_, ?_⟩
  · intro hid
    cases hs : search (resolveAlias aliases text) with
    | nil =>
      rw [freshEntity_nil linker aliases ratio search text hs] at hid
      exact absurd rfl hid
    | cons r rs =>
      rw [freshEntity_cons linker aliases ratio search text r rs hs] at hid ⊢
      obtain ⟨h1, h2⟩ := gateEntity_id_accepted linker text _ hid
      rw [h2]
      exact ⟨h1, by simp⟩
  · intro hs
    rw [freshEntity_nil linker aliases ratio search text hs]
    exact ⟨rfl, rfl, rfl, rfl⟩
  · intro r rs hs hlt
    rw [freshEntity_cons linker aliases ratio search text r rs hs]
    rw [gateEntity_below linker text _ hlt]
    exact ⟨rfl, rfl, rfl, rfl⟩

/-- Witness for C1: an empty catalog search yields the no-match fields. -/
theorem linkEntity_confidence_gating_witness :
    (linkEntity ⟨3 / 5, 24⟩ [] (fun _ _ => 0) (fun _ => []) [97] false []).entity.anilist_id = none ∧
    (linkEntity ⟨3 / 5, 24⟩ [] (fun _ _ => 0) (fun _ => []) [97] false []).entity.match_type = MatchType.mtNone ∧
    (linkEntity ⟨3 / 5, 24⟩ [] (fun _ _ => 0) (fun _ => []) [97] false []).entity.normalized_title = [97] ∧
    (linkEntity ⟨3 / 5, 24⟩ [] (fun _ _ => 0) (fun _ => []) [97] false []).entity.confidence = 0 :=
  (linkEntity_confidence_gating ⟨3 / 5, 24⟩ [] (fun _ _ => 0) (fun _ => []) [97] []).2.1 rfl

/-- Claim C5: with `use_cache=True`, two successive `link_entity` calls on
the same text return identical `LinkedEntity` field values, and the second
call performs zero catalog search calls — even if the catalog and similarity
oracles change between the calls. -/
theorem linkEntity_cache_determinism (linker : EntityLinker) (aliases : AliasTable)
    (ratio1 ratio2 : Str → Str → Rat) (search1 search2 : Str → List AnimeData)
    (text : Str) (cache : LinkCache) :
    (linkEntity linker aliases ratio2 search2 text true
        (linkEntity linker aliases ratio1 search1 text true cache).cache).entity
      = (linkEntity linker aliases ratio1 search1 text true cache).entity ∧
    (linkEntity linker aliases ratio2 search2 text true
        (linkEntity linker aliases ratio1 search1 text true cache).cache).searchCalls = 0 := by
  cases h : checkCache cache text with
  | some c =>
    rw [linkEntity_hit linker aliases ratio1 search1 h]
    rw [linkEntity_hit linker aliases ratio2 search2 h]
    exact ⟨rfl, rfl⟩
  | none =>
    rw [linkEntity_miss linker aliases ratio1 search1 h]
    have h2 : checkCache
        (addToCache cache text (freshEntity linker aliases ratio1 search1 text)) text
        = some (freshEntity linker aliases ratio1 search1 text) :=
      checkCache_addToCache _ _ _ (freshEntity_original linker aliases ratio1 search1 text)
    rw [linkEntity_hit linker aliases ratio2 search2 h2]
    exact ⟨rfl, rfl⟩

/-- The key just assigned is present in the table with its new value. -/
theorem mem_dictSet {α : Type} (k : Str) (v : α) :
    ∀ d : List (Str × α), (k, v) ∈ dictSet k v d := by
  intro d
  induction d with
  | nil => simp [dictSet]
  | cons p rest ih =>
    obtain ⟨k2, v2⟩ := p
    by_cases h : k2 = k
    · subst h
      simp [dictSet]
    · simp only [dictSet, if_neg h]
      exact List.mem_cons_of_mem _ ih

/-- Deduplication keeps a representative of every normalized class present
in the input (and not already in the seen-set). -/
theorem dedupAux_covers (x : Str) : ∀ (l : List Str) (seen : List Str),
    x ∈ l → ¬ normalizeText x ∈ seen →
    ∃ y ∈ dedupAux seen l, normalizeText y = normalizeText x := by
  intro l
  induction l with
  | nil => intro seen hx _; cases hx
  | cons e es ih =>
    intro seen hx hns
    by_cases hseen : normalizeText e ∈ seen
    · have hne : x ≠ e := by
        intro he
        subst he
        exact hns hseen
      have hxes : x ∈ es := by
        rcases List.mem_cons.mp hx with h | h
        · exact absurd h hne
        · exact h
      have hres := ih seen hxes hns
      simpa [dedupAux, hseen] using hres
    · by_cases hEq : normalizeText x = normalizeText e
      · refine ⟨e, ?_, hEq.symm⟩
        simp [dedupAux, hseen]
      · have hne : x ≠ e := fun he => hEq (he ▸ rfl)
        have hxes : x ∈ es := by
          rcases List.mem_cons.mp hx with h | h
          · exact absurd h hne
          · exact h
        have hns2 : ¬ normalizeText x ∈ (normalizeText e :: seen) := by
          intro hmem
          rcases List.mem_cons.mp hmem with h | h
          · exact hEq h
          · exact hns h
        obtain ⟨y, hy1, hy2⟩ := ih (normalizeText e :: seen) hxes hns2
        refine ⟨y, ?_, hy2⟩
        simp only [dedupAux, if_neg hseen]
        exact List.mem_cons_of_mem _ hy1

/-- Counterexample to C9 as stated: after `add_alias("fate/stay night",
"Fate/stay night")` (a key the source ships), the table holds the alias, yet
`link_entity` does not resolve it: `_resolve_alias` looks the normalized
text up, normalization strips the slash, the lookup misses, and a catalog
that knows only the full name is queried with the raw text and returns no
match.  So the unconditional "link_entity will resolve that alias" is
false. -/
theorem linkEntity_alias_slash_unresolved :
    dictGet (pyLowerStr fateAlias) (addAlias ⟨3 / 5, 24⟩ [] fateAlias fateFull) = some fateFull ∧
    resolveAlias (addAlias ⟨3 / 5, 24⟩ [] fateAlias fateFull) fateAlias = fateAlias ∧
    fateAlias ≠ fateFull ∧
    (linkEntity ⟨3 / 5, 24⟩ (addAlias ⟨3 / 5, 24⟩ [] fateAlias fateFull) (fun _ _ => 1)
        (fun q => if q = fateFull then [demoEnglishAnime] else [])
        fateAlias false []).entity.anilist_id = none := by
  refine ⟨by decide, by decide, by decide, by decide⟩

/-- Claim C9, amended: the alias table is a class-level dictionary shared by
every linker instance: after A's `add_alias`, B's `get_aliases` contains the
lower-cased alias mapped to the full name.  B's `extract_entities` matches
the stored key literally (word-bounded, case-insensitive), so whenever the
lower-cased alias occurs word-bounded in the lowered text its alias scan
emits the full name and the extracted list keeps a candidate of the full
name's normalized form; B's `link_entity` resolves the alias only when the
lower-cased alias survives text normalization — an alias containing a
stripped character (such as a slash) is stored but not resolved there. -/
theorem aliasTable_shared_scoped (a b : EntityLinker) (tbl : AliasTable)
    (ab full : Str) (quoteHits : List Str) (text : Str) :
    dictGet (pyLowerStr ab) (getAliases b (addAlias a tbl ab full)) = some full ∧
    (wordSearch (pyLowerStr ab) (pyLowerStr text) = true →
      full ∈ aliasScan (addAlias a tbl ab full) (pyLowerStr text) ∧
      ∃ e ∈ extractEntities quoteHits (addAlias a tbl ab full) text,
        normalizeText e = normalizeText full) ∧
    (normalizeText ab = pyLowerStr ab →
      resolveAlias (addAlias a tbl ab full) ab = full) := by
  refine ⟨?_, ?_, ?_⟩
  · unfold getAliases addAlias
    exact dictGet_dictSet _ _ _
  · intro hw
    have hmem : (pyLowerStr ab, full) ∈ addAlias a tbl ab full := mem_dictSet _ _ _
    have hscan : full ∈ aliasScan (addAlias a tbl ab full) (pyLowerStr text) := by
      unfold aliasScan
      refine List.mem_filterMap.mpr ⟨(pyLowerStr ab, full), hmem, ?_⟩
      simp [hw]
    refine ⟨hscan, ?_⟩
    have hin : full ∈ quoteHits ++ aliasScan (addAlias a tbl ab full) (pyLowerStr text) :=
      List.mem_append_right _ hscan
    simpa [extractEntities, dedupByNormalized] using
      dedupAux_covers full (quoteHits ++ aliasScan (addAlias a tbl ab full) (pyLowerStr text))
        [] hin (by simp)
  · intro h
    unfold resolveAlias addAlias
    rw [h, dictGet_dictSet]

/-- Witness for the amended C9: instance A adds the alias jjk; a distinct
instance B reads it back, its extraction scan finds it in the text jjk, the
extracted list keeps its normalized form, and its resolution step expands
it. -/
theorem aliasTable_shared_scoped_witness :
    dictGet (pyLowerStr [106, 106, 107])
        (getAliases ⟨1 / 2, 48⟩ (addAlias ⟨3 / 5, 24⟩ [] [106, 106, 107] [74])) = some [74] ∧
    [74] ∈ aliasScan (addAlias ⟨3 / 5, 24⟩ [] [106, 106, 107] [74])
        (pyLowerStr [106, 106, 107]) ∧
    (∃ e ∈ extractEntities [] (addAlias ⟨3 / 5, 24⟩ [] [106, 106, 107] [74]) [106, 106, 107],
        normalizeText e = normalizeText [74]) ∧
    resolveAlias (addAlias ⟨3 / 5, 24⟩ [] [106, 106, 107] [74]) [106, 106, 107] = [74] := by
  have h := aliasTable_shared_scoped ⟨3 / 5, 24⟩ ⟨1 / 2, 48⟩ [] [106, 106, 107] [74]
    [] [106, 106, 107]
  exact ⟨h.1, (h.2.1 (by decide)).1, (h.2.1 (by decide)).2, h.2.2 (by decide)⟩

/-! Lemmas about the RSS aggregation loop. -/

/-- The loop's success count adds one per non-empty fetch. -/
theorem aggRun_succ (fetch : Str → List RSSItem) :
    ∀ (keys : List Str) (acc : AggAcc),
      (aggRun fetch keys acc).succ
        = acc.succ + keys.countP (fun k => !(fetch k).isEmpty) := by
  intro keys
  induction keys with
  | nil => intro acc; simp [aggRun]
  | cons k ks ih =>
    intro acc
    have hstep : aggRun fetch (k :: ks) acc = aggRun fetch ks (aggStep fetch acc k) := rfl
    rw [hstep, ih, List.countP_cons]
    by_cases h : (fetch k).isEmpty
    · simp [aggStep, h]
    · have h2 : (fetch k).isEmpty = false := by simpa using h
      simp only [aggStep, h2, Bool.not_false, if_false]
      simp [h2]
      omega

/-- The loop's failure count adds one per empty fetch. -/
theorem aggRun_failed (fetch : Str → List RSSItem) :
    ∀ (keys : List Str) (acc : AggAcc),
      (aggRun fetch keys acc).failed
        = acc.failed + keys.countP (fun k => (fetch k).isEmpty) := by
  intro keys
  induction keys with
  | nil => intro acc; simp [aggRun]
  | cons k ks ih =>
    intro acc
    have hstep : aggRun fetch (k :: ks) acc = aggRun fetch ks (aggStep fetch acc k) := rfl
    rw [hstep, ih, List.countP_cons]
    by_cases h : (fetch k).isEmpty
    · simp [aggStep, h]
      omega
    · have h2 : (fetch k).isEmpty = false := by simpa using h
      simp [aggStep, h2]

/-- The loop accumulates exactly the concatenation of all fetch results
(empty results contribute nothing). -/
theorem aggRun_items (fetch : Str → List RSSItem) :
    ∀ (keys : List Str) (acc : AggAcc),
      (aggRun fetch keys acc).items = acc.items ++ (keys.map fetch).flatten := by
  intro keys
  induction keys with
  | nil => intro acc; simp [aggRun]
  | cons k ks ih =>
    intro acc
    have hstep : aggRun fetch (k :: ks) acc = aggRun fetch ks (aggStep fetch acc k) := rfl
    rw [hstep, ih]
    by_cases h : (fetch k).isEmpty
    · have h2 : fetch k = [] := by simpa [List.isEmpty_iff] using h
      simp [aggStep, h, h2]
    · have h2 : (fetch k).isEmpty = false := by simpa using h
      simp [aggStep, h2, List.append_assoc]

/-- Dropping empty fetch results does not change the concatenation. -/
theorem join_filter_nonempty (fetch : Str → List RSSItem) :
    ∀ keys : List Str,
      (keys.map fetch).flatten
        = ((keys.filter fun k => !(fetch k).isEmpty).map fetch).flatten := by
  intro keys
  induction keys with
  | nil => rfl
  | cons k ks ih =>
    by_cases h : (fetch k).isEmpty
    · have h2 : fetch k = [] := by simpa [List.isEmpty_iff] using h
      simp [List.filter_cons, h, h2, ih]
    · have h2 : (fetch k).isEmpty = false := by simpa using h
      simp [List.filter_cons, h2, ih]

/-- Counterexample to C2 as stated: a run over one enabled source whose
fetch succeeds (transport ok, well-formed feed) but legitimately yields zero
items is counted in `failed_sources`, not in `successful_sources` — the
aggregate cannot distinguish an error from a legitimately empty result. -/
theorem fetchAllSources_zero_item_success_counted_failed :
    (fetchAllSources demoSources demoTransport 0 7 none none).2.failed_sources = 1 ∧
    (fetchAllSources demoSources demoTransport 0 7 none none).2.successful_sources = 0 ∧
    demoTransport [97] = Transport.ok (FeedBody.wellFormed []) := by
  refine ⟨?_, ?_, rfl⟩ <;> rfl

/-- Claim C2, amended: `failed_sources` counts the enabled sources whose
fetch returned an empty item list — whether because of an error or because
nothing new was published — and `successful_sources` counts those returning
at least one item; the returned item list is a permutation (the final sort)
of the concatenation of all enabled sources' results, which equals the
concatenation of the successful sources' results alone. -/
theorem fetchAllSources_stats (sources : SourceTable) (transport : Str → Transport)
    (now days : Int) (limitPer : Option Nat) (keys : Option (List Str)) :
    (fetchAllSources sources transport now days limitPer keys).2.successful_sources
      = (enabledKeysOf sources keys).countP
          (fun k => !(fetchSource sources transport now days limitPer k).isEmpty) ∧
    (fetchAllSources sources transport now days limitPer keys).2.failed_sources
      = (enabledKeysOf sources keys).countP
          (fun k => (fetchSource sources transport now days limitPer k).isEmpty) ∧
    ((fetchAllSources sources transport now days limitPer keys).1).Perm
      (((enabledKeysOf sources keys).map
          (fetchSource sources transport now days limitPer)).flatten) ∧
    ((enabledKeysOf sources keys).map (fetchSource sources transport now days limitPer)).flatten
      = (((enabledKeysOf sources keys).filter
            (fun k => !(fetchSource sources transport now days limitPer k).isEmpty)).map
          (fetchSource sources transport now days limitPer)).flatten := by
  refine ⟨?_, ?_, ?_, join_filter_nonempty _ _⟩
  · show (aggRun (fetchSource sources transport now days limitPer)
        (enabledKeysOf sources keys)
        ⟨[], 0, 0, (disabledKeysOf sources keys).map fun k => (k, SourceStatus.disabled, 0)⟩).succ
      = (enabledKeysOf sources keys).countP
          (fun k => !(fetchSource sources transport now days limitPer k).isEmpty)
    rw [aggRun_succ]
    exact Nat.zero_add _
  · show (aggRun (fetchSource sources transport now days limitPer)
        (enabledKeysOf sources keys)
        ⟨[], 0, 0, (disabledKeysOf sources keys).map fun k => (k, SourceStatus.disabled, 0)⟩).failed
      = (enabledKeysOf sources keys).countP
          (fun k => (fetchSource sources transport now days limitPer k).isEmpty)
    rw [aggRun_failed]
    exact Nat.zero_add _
  · have hi : (aggRun (fetchSource sources transport now days limitPer)
        (enabledKeysOf sources keys)
        ⟨[], 0, 0, (disabledKeysOf sources keys).map fun k => (k, SourceStatus.disabled, 0)⟩).items
      = ((enabledKeysOf sources keys).map
          (fetchSource sources transport now days limitPer)).flatten := by
      rw [aggRun_items]
      rfl
    show ((aggRun (fetchSource sources transport now days limitPer)
        (enabledKeysOf sources keys)
        ⟨[], 0, 0, (disabledKeysOf sources keys).map fun k =>
          (k, SourceStatus.disabled, 0)⟩).items.mergeSort
        (fun a b => decide (pubSortKey b ≤ pubSortKey a))).Perm
      (((enabledKeysOf sources keys).map
          (fetchSource sources transport now days limitPer)).flatten)
    rw [hi]
    exact List.mergeSort_perm _ _

/-- Claim C4: `fetch_source` returns the empty list on every failure mode —
unknown source key, disabled source, HTTP timeout, non-success HTTP status,
connection failure, any other transport-level error, and malformed XML —
and, being total, never raises. -/
theorem fetchSource_failure_empty (sources : SourceTable) (transport : Str → Transport)
    (now days : Int) (limit : Option Nat) (key : Str) :
    (dictGet key sources = none →
      fetchSource sources transport now days limit key = []) ∧
    (∀ src, dictGet key sources = some src → src.enabled.getD true = false →
      fetchSource sources transport now days limit key = []) ∧
    (transport key = Transport.timeout →
      fetchSource sources transport now days limit key = []) ∧
    (∀ st, transport key = Transport.httpError st →
      fetchSource sources transport now days limit key = []) ∧
    (transport key = Transport.connError →
      fetchSource sources transport now days limit key = []) ∧
    (transport key = Transport.otherError →
      fetchSource sources transport now days limit key = []) ∧
    (transport key = Transport.ok FeedBody.malformed →
      fetchSource sources transport now days limit key = []) := by
  refine ⟨?_, ?_, ?_, ?_, ?_, ?_, ?_⟩
  · intro hd
    simp [fetchSource, hd]
  · intro src hd he
    simp [fetchSource, hd, he]
  · intro ht
    cases hd : dictGet key sources with
    | none => simp [fetchSource, hd]
    | some src =>
      by_cases he : src.enabled.getD true = false
      · simp [fetchSource, hd, he]
      · simp [fetchSource, hd, he, ht]
  · intro st ht
    cases hd : dictGet key sources with
    | none => simp [fetchSource, hd]
    | some src =>
      by_cases he : src.enabled.getD true = false
      · simp [fetchSource, hd, he]
      · simp [fetchSource, hd, he, ht]
  · intro ht
    cases hd : dictGet key sources with
    | none => simp [fetchSource, hd]
    | some src =>
      by_cases he : src.enabled.getD true = false
      · simp [fetchSource, hd, he]
      · simp [fetchSource, hd, he, ht]
  · intro ht
    cases hd : dictGet key sources with
    | none => simp [fetchSource, hd]
    | some src =>
      by_cases he : src.enabled.getD true = false
      · simp [fetchSource, hd, he]
      · simp [fetchSource, hd, he, ht]
  · intro ht
    cases hd : dictGet key sources with
    | none => simp [fetchSource, hd]
    | some src =>
      by_cases he : src.enabled.getD true = false
      · simp [fetchSource, hd, he]
      · simp only [fetchSource, hd, he, ht]
        cases limit with
        | none => simp [applyLimit, dateFilter, parseFeed]
        | some n => cases n <;> simp [applyLimit, dateFilter, parseFeed]

/-- Witness for C4: a timeout on the known enabled source yields the empty
list. -/
theorem fetchSource_failure_empty_witness :
    fetchSource demoSources (fun _ => Transport.timeout) 0 7 none [97] = [] :=
  (fetchSource_failure_empty demoSources (fun _ => Transport.timeout) 0 7 none [97]).2.2.1 rfl

/-- Claim C10: `fetch_source` treats `limit=0` exactly like `limit=None`
(Python truthiness skips the truncation), so `limit=0` returns every item
passing the date filter rather than an empty list. -/
theorem fetchSource_limit_zero (sources : SourceTable) (transport : Str → Transport)
    (now days : Int) (key : Str) (items : List RSSItem) :
    fetchSource sources transport now days (some 0) key
      = fetchSource sources transport now days none key ∧
    applyLimit (some 0) items = items := by
  constructor
  · unfold fetchSource
    cases dictGet key sources with
    | none => rfl
    | some src =>
      by_cases he : src.enabled.getD true = false
      · simp [he]
      · simp only [if_neg he]
        cases transport key with
        | ok body => simp [applyLimit]
        | timeout => rfl
        | httpError st => rfl
        | connError => rfl
        | otherError => rfl
  · rfl

end Anime
